import Mathlib

set_option linter.unusedVariables false
set_option linter.unusedSectionVars false

/-!
Verification of the adaptive retrieval program (`adaptive_retrieval_voyage.py`).

Shallow embedding: the external collaborators (the MongoDB Atlas document
store, the Voyage embedding provider, wall-clock time) enter as explicit
parameters; every function of the program itself is translated directly from
the source.  Python dictionaries are modelled as insertion-ordered association
lists with Python's assignment semantics (overwrite in place, append when the
key is new), which reproduces both dict iteration order and the
last-writer-wins behaviour of duplicate keys in a dict comprehension.
-/

namespace AdaptiveMongo

/-- Scores are modelled as rationals.  The only score constants in the source
are the float literals `0.4`, `0.3`, `0.3` of `judge`, and the only sums the
program ever produces are `0.0` and `0.4 + 0.3 + 0.3`.  The IEEE-754 double
evaluation of `0.4 + 0.3 + 0.3` is exactly `1.0` (both intermediate roundings
are ties resolved to even mantissas), so the rational model agrees with the
float semantics of the source on every value the program produces, compares
or returns. -/
abbrev Score := ℚ

/-- The constant `EMBED_MODEL = "voyage-code-2"` (source line 14). -/
def EMBED_MODEL : String := "voyage-code-2"

/-- ASCII whitespace as recognised by Python `str.strip()`. -/
def isPyWs (c : Char) : Bool :=
  c == ' ' || c == '\t' || c == '\n' || c == '\r' || c == '\x0b' || c == '\x0c'

/-- Python `str.strip()`: drop leading and trailing whitespace. -/
def pyStrip (s : String) : String :=
  String.mk (((s.data.dropWhile isPyWs).reverse.dropWhile isPyWs).reverse)

/-- Models `embed` (source lines 27-34).  `provider` models the Voyage call
`vo.embed(texts=[text], model=EMBED_MODEL).embeddings[0]`, i.e. the single
vector the provider returns for a text.  The second component of the result
is the call log: the list of texts actually sent to the provider, so that
"performs no provider call" is expressible. -/
def embed (provider : String → List Score) (text : String) :
    List Score × List String :=
  if pyStrip text = "" then ([], [])
  else (provider text, [text])

/-- Projection of a retrieved document (the `$project` stage of
`atlas_vector_search`, lines 84-94, and the fields `generate_answer` reads).
`id` models `str(d["_id"])`; a field that the stored document lacks is
`none`. -/
structure Doc where
  id : String
  component : Option String
  error_code : Option String
  normalized_message : Option String
  raw_log : Option String
  content : Option String
  deriving DecidableEq

/-- Python `a or b` on optional strings: `None` and `""` are falsy. -/
def pyOrStr : Option String → Option String → Option String
  | some s, b => if s = "" then b else some s
  | none, b => b

/-- Rendering of a Python value inside an f-string: `None` prints as
`"None"`, a string prints as itself. -/
def renderOpt : Option String → String
  | some s => s
  | none => "None"

/-- The expression `d.get("normalized_message") or d.get("raw_log") or d.get("content")`
(source line 127). -/
def causeText (d : Doc) : String :=
  renderOpt (pyOrStr d.normalized_message (pyOrStr d.raw_log d.content))

/-- The f-string template of `generate_answer` (source lines 120-131),
applied to the first-ranked document. -/
def answerTemplate (d : Doc) : String :=
  "\nMongoDB Issue Detected\n---------------------\nComponent: "
    ++ (d.component.getD ("UNKNOWN"))
    ++ "\nError Code: "
    ++ (d.error_code.getD ("N/A"))
    ++ "\n\nLikely Cause:\n"
    ++ causeText d
    ++ "\n\nSuggested Fix:\nReview connection pool, retry logic, and MongoDB Atlas configuration.\n"

/-- Models `generate_answer` (source lines 115-131): `None` for an empty document
list, else the fixed template over `docs[0]`.  The `query` parameter is
accepted and ignored, exactly as in the source. -/
def generate_answer (query : String) (docs : List Doc) : Option String :=
  match docs with
  | [] => none
  | d :: _ => some (answerTemplate d)

/-- Tests whether `needle` is a prefix of `hay` (boolean, on character lists). -/
def isPrefixB : List Char → List Char → Bool
  | [], _ => true
  | _ :: _, [] => false
  | c :: cs, d :: ds => c == d && isPrefixB cs ds

/-- Python `needle in hay` on character lists: some tail of `hay` starts
with `needle`. -/
def containsSub : List Char → List Char → Bool
  | [], needle => needle.isEmpty
  | c :: t, needle => isPrefixB needle (c :: t) || containsSub t needle

/-- Python `needle in hay` for strings. -/
def containsStr (hay needle : String) : Bool := containsSub hay.data needle.data

/-- Models `judge` (source lines 136-144): `+0.4` for a `"Component:"` marker,
`+0.3` for `"Likely Cause"`, `+0.3` for `"Suggested Fix"`. -/
def judge (answer : String) : Score :=
  (if containsStr answer ("Component:") then 4/10 else 0)
    + (if containsStr answer ("Likely Cause") then 3/10 else 0)
    + (if containsStr answer ("Suggested Fix") then 3/10 else 0)

/-- Models `rewrite_query` (source lines 149-150). -/
def rewrite_query (q : String) : String :=
  q ++ " mongodb production error root cause"

/-- Python dict assignment `m[k] = v`: overwrite in place when the key is
present (the entry keeps its position), append a new entry otherwise. -/
def dictInsert {κ α : Type} [BEq κ] (m : List (κ × α)) (k : κ) (v : α) :
    List (κ × α) :=
  if m.any (fun p => p.1 == k) then
    m.map (fun p => if p.1 == k then (p.1, v) else p)
  else m ++ [(k, v)]

/-- A Python dict comprehension over an association list, left to right:
duplicate keys keep their first position but their last value. -/
def pyDict {κ α : Type} [BEq κ] (l : List (κ × α)) : List (κ × α) :=
  l.foldl (fun m p => dictInsert m p.1 p.2) []

/-- Dict lookup `m.get(k)` as an option. -/
def dictFind {κ α : Type} [BEq κ] (m : List (κ × α)) (k : κ) : Option α :=
  (m.find? (fun p => p.1 == k)).map Prod.snd

/-- Dict lookup with default, `m.get(k, d)`. -/
def dictGetD {κ α : Type} [BEq κ] (m : List (κ × α)) (k : κ) (d : α) : α :=
  (dictFind m k).getD d

/-- Models `hybrid_search` (source lines 102-110).  The two store queries — the
vector-search result list `vec` and the keyword-search result list `kw`,
each produced externally by Atlas — are inputs; this models
`combined = {str(d["_id"]): d for d in vec + kw}` followed by
`list(combined.values())`. -/
def hybrid_search (vec kw : List Doc) : List Doc :=
  (pyDict ((vec ++ kw).map (fun d => (d.id, d)))).map Prod.snd

/-- The four strategy names of the adaptive loop (source lines 159-164). -/
inductive Strat
  | logs_vector
  | logs_hybrid
  | knowledge_vector
  | rewrite_knowledge
  deriving DecidableEq

/-- The canonical initial strategy list `strategies` (lines 159-164) with its
`top_k` values. -/
def initialStrategies : List (Strat × Nat) :=
  [(.logs_vector, 5), (.logs_hybrid, 5), (.knowledge_vector, 5),
   (.rewrite_knowledge, 10)]

/-- Position of a strategy in the canonical initial order. -/
def canonIdx : Strat → Nat
  | .logs_vector => 0
  | .logs_hybrid => 1
  | .knowledge_vector => 2
  | .rewrite_knowledge => 3

/-- Models `score = judge(answer) if answer else 0.0` (line 184), with Python
truthiness: `None` and `""` are falsy. -/
def scoreAnswer : Option String → Score
  | none => 0
  | some a => if a = "" then 0 else judge a

/-- Observable events of one adaptive run: a `metrics.insert_one` record
(lines 186-192; the `query` and `ts` fields are fixed per run and external,
so the record is identified by its strategy, pass index and score) and the
in-place re-sort of the strategy list (line 200). -/
inductive Event
  | metric (strategy : Strat) (passIdx : Nat) (score : Score)
  | resort (passIdx : Nat)
  deriving DecidableEq

/-- Recognises the metric record of a given (strategy, pass) pair. -/
def isMetricOf (s : Strat) (p : Nat) : Event → Bool
  | .metric s2 p2 _ => s2 == s && p2 == p
  | .resort _ => false

/-- Recognises any metric record. -/
def isMetric : Event → Bool
  | .metric _ _ _ => true
  | .resort _ => false

/-- The mutable state of `adaptive_retrieval`: the `strategy_scores` dict,
the `strategy_answers` dict (both insertion-ordered), and the trace of
observable events. -/
structure LoopState where
  scores : List (Strat × Score)
  answers : List (Strat × Option String)
  events : List Event
  deriving DecidableEq

/-- The empty initial state (lines 166-167). -/
def initState : LoopState := ⟨[], [], []⟩

/-- One iteration of the inner `for strat, k in strategies` loop (lines
172-197) for pass `p`.  `docsOf p s` is the ranked document list the
retrieval stage (lines 173-181: `atlas_vector_search` / `hybrid_search`
against the external store, with the strategy's fixed `top_k`) returns for
strategy `s` during pass `p`.  The iteration synthesizes an answer, judges
it, appends the metrics record, and updates
`strategy_scores[strat] = max(strategy_scores.get(strat, 0), score)` and
`strategy_answers[strat] = answer`. -/
def stepStrategy (query : String) (docsOf : Nat → Strat → List Doc) (p : Nat)
    (st : LoopState) (sk : Strat × Nat) : LoopState :=
  let docs := docsOf p sk.1
  let answer := generate_answer query docs
  let score := scoreAnswer answer
  { scores := dictInsert st.scores sk.1 (max (dictGetD st.scores sk.1 0) score)
    answers := dictInsert st.answers sk.1 answer
    events := st.events ++ [Event.metric sk.1 p score] }

/-- Stable insertion of `x` into a list sorted by `key` descending: `x` goes
before the first element whose key is not larger, so among equal keys the
earlier original element stays first. -/
def insertDesc {α : Type} (key : α → Score) (x : α) : List α → List α
  | [] => [x]
  | y :: ys => if key y ≤ key x then x :: y :: ys else y :: insertDesc key x ys

/-- Stable sort by `key` descending (insertion sort). -/
def sortDesc {α : Type} (key : α → Score) : List α → List α
  | [] => []
  | x :: xs => insertDesc key x (sortDesc key xs)

/-- Line 200: `strategies.sort(key=lambda s: strategy_scores.get(s[0], 0),
reverse=True)`.  CPython `list.sort` is stable, and with `reverse=True` it
orders by key descending while ties keep their prior relative order — which
is exactly what `sortDesc` computes (its characterising properties are the
subject of claim C4). -/
def resequence (scores : List (Strat × Score)) (l : List (Strat × Nat)) :
    List (Strat × Nat) :=
  sortDesc (fun sk => dictGetD scores sk.1 0) l

/-- One pass of the outer loop (lines 169-200): run every strategy in the
current order, then re-sort the strategy list for the next pass.  Returns
the re-sorted list and the updated state. -/
def runPass (query : String) (docsOf : Nat → Strat → List Doc) (p : Nat)
    (strats : List (Strat × Nat)) (st : LoopState) :
    List (Strat × Nat) × LoopState :=
  let st1 := strats.foldl (stepStrategy query docsOf p) st
  (resequence st1.scores strats,
   { st1 with events := st1.events ++ [Event.resort p] })

/-- The state after pass 0, together with the re-sorted strategy list the
second pass will use. -/
def pass0 (query : String) (docsOf : Nat → Strat → List Doc) :
    List (Strat × Nat) × LoopState :=
  runPass query docsOf 0 initialStrategies initState

/-- The state after both passes of `for agent_pass in range(2)`. -/
def adaptiveLoop (query : String) (docsOf : Nat → Strat → List Doc) :
    LoopState :=
  (runPass query docsOf 1 (pass0 query docsOf).1 (pass0 query docsOf).2).2

/-- Models `max(strategy_scores, key=strategy_scores.get)` (line 204): iterate the
keys in insertion order keeping the current maximum, replacing it only on a
strictly greater value — so the first key attaining the maximum wins.
`none` exactly when the dict is empty (the `if strategy_scores:` test of
line 203). -/
def pyMaxKey (m : List (Strat × Score)) : Option Strat :=
  (m.foldl
    (fun acc p =>
      match acc with
      | none => some p
      | some q => if p.2 > q.2 then some p else some q)
    none).map Prod.fst

/-- The two possible results of `adaptive_retrieval` (lines 202-211): the
dict with answer/winning_strategy/confidence, or the sentinel dict
`{"answer": "No confident answer found."}`. -/
inductive AdaptiveResult
  | found (answer : Option String) (winning_strategy : Strat)
      (confidence : Score)
  | noConfidentAnswer
  deriving DecidableEq

/-- The tail of `adaptive_retrieval` (lines 202-211): `if strategy_scores:`
pick the winner via `max(strategy_scores, key=strategy_scores.get)` and
build the result dict, else return the sentinel dict.
`strategy_answers.get(winning_strategy)` can in principle be absent, hence
the `Option.join`; `strategy_scores[winning_strategy]` is read with default
0 (the key is always present when this branch runs). -/
def finishResult (st : LoopState) : AdaptiveResult :=
  match pyMaxKey st.scores with
  | some w => .found ((dictFind st.answers w).join) w (dictGetD st.scores w 0)
  | none => .noConfidentAnswer

/-- Models `adaptive_retrieval` (lines 155-211).  The two `ensure_embeddings` calls
at lines 156-157 only mutate the external store (their effect is part of
what `docsOf` returns) and are modelled separately by `ensure_embeddings`
below. -/
def adaptive_retrieval (query : String)
    (docsOf : Nat → Strat → List Doc) : AdaptiveResult :=
  finishResult (adaptiveLoop query docsOf)

/-- The score strategy `s` obtains in pass `p`: judge of the synthesized
answer over the documents the store returns. -/
def passScore (query : String) (docsOf : Nat → Strat → List Doc) (p : Nat)
    (s : Strat) : Score :=
  scoreAnswer (generate_answer query (docsOf p s))

/-- The answer strategy `s` produces in pass `p`. -/
def passAnswer (query : String) (docsOf : Nat → Strat → List Doc) (p : Nat)
    (s : Strat) : Option String :=
  generate_answer query (docsOf p s)

/-- The best score of strategy `s` across the two passes. -/
def bestScore (query : String) (docsOf : Nat → Strat → List Doc)
    (s : Strat) : Score :=
  max (passScore query docsOf 0 s) (passScore query docsOf 1 s)

/-- Accumulate a key, keeping only first occurrences. -/
def addKey {κ : Type} [BEq κ] (ks : List κ) (k : κ) : List κ :=
  if ks.contains k then ks else ks ++ [k]

/-- First-occurrence deduplication of a key list, preserving order — the key
order of a Python dict built from those keys. -/
def firstDedup {κ : Type} [BEq κ] (l : List κ) : List κ := l.foldl addKey []

/-- A document of one of the two collections as `ensure_embeddings` sees it:
its `_id` (`oid`, unique), its text attributes, and the three embedding
fields.  `embedding = none` models a missing field, `some []` an empty
array. -/
structure StoredDoc where
  oid : Nat
  attrs : List (String × String)
  embedding : Option (List Score)
  embedding_model : Option String
  embedding_ts : Option Nat
  deriving DecidableEq

/-- The `$or` filter of `col.find` (lines 40-45): the embedding field is
absent or has `$size` 0. -/
def missingEmbedding (d : StoredDoc) : Bool :=
  match d.embedding with
  | none => true
  | some [] => true
  | some (_ :: _) => false

/-- The text assembly `" ".join(doc.get(f, "") for f in text_fields).strip()` (line 49). -/
def docText (text_fields : List String) (d : StoredDoc) : String :=
  pyStrip (String.intercalate (" ")
    (text_fields.map (fun f => (dictGetD d.attrs f ("")))))

/-- One iteration of the `for doc in missing` loop (lines 48-62), extended
to every document of the collection: a document not matched by the cursor's
filter is left untouched.  The accumulator carries the updated collection,
the `count` of updated documents, and the provider call log. -/
def ensureStep (provider : String → List Score) (now : Nat)
    (text_fields : List String) (acc : List StoredDoc × Nat × List String)
    (d : StoredDoc) : List StoredDoc × Nat × List String :=
  if missingEmbedding d then
    let text := docText text_fields d
    if text = "" then (acc.1 ++ [d], acc.2.1, acc.2.2)
    else
      let r := embed provider text
      (acc.1 ++ [{ d with embedding := some r.1,
                          embedding_model := some EMBED_MODEL,
                          embedding_ts := some now }],
       acc.2.1 + 1, acc.2.2 ++ r.2)
  else (acc.1 ++ [d], acc.2.1, acc.2.2)

/-- Models `ensure_embeddings` (lines 39-65).  `update_one({"_id": doc["_id"]},
{"$set": ...})` writes the vector, the model identifier and a timestamp onto
the same document (`_id` is unique), modelled as the in-place update of the
collection list; `now` models `datetime.now(UTC)`.  Returns the updated
collection, the number of updated documents, and the list of texts sent to
the embedding provider. -/
def ensure_embeddings (provider : String → List Score) (now : Nat)
    (text_fields : List String) (docs : List StoredDoc) :
    List StoredDoc × Nat × List String :=
  docs.foldl (ensureStep provider now text_fields) ([], 0, [])

/-- The hypothetical best-score map of the concrete resequencing scenario of
claim C4: `{logs_vector: 0.6, logs_hybrid: 1.0, knowledge_vector: 0.0,
rewrite_knowledge: 1.0}`. -/
def demoScores : List (Strat × Score) :=
  [(.logs_vector, 6/10), (.logs_hybrid, 1), (.knowledge_vector, 0),
   (.rewrite_knowledge, 1)]

/-- The per-document effect of the `ensure_embeddings` loop body: untouched
unless the embedding is missing or empty and the concatenated text is
non-empty, in which case the vector, the model identifier and the timestamp
are set. -/
def ensureUpdate (provider : String → List Score) (now : Nat)
    (text_fields : List String) (d : StoredDoc) : StoredDoc :=
  if missingEmbedding d then
    if docText text_fields d = "" then d
    else { d with embedding := some (embed provider (docText text_fields d)).1,
                  embedding_model := some EMBED_MODEL,
                  embedding_ts := some now }
  else d

/-- The provider call log the `ensure_embeddings` loop body emits for one
document. -/
def ensureCalls (provider : String → List Score) (text_fields : List String)
    (d : StoredDoc) : List String :=
  if missingEmbedding d then
    if docText text_fields d = "" then []
    else (embed provider (docText text_fields d)).2
  else []

/-- A document counts towards `count` iff its embedding is missing or empty
and its concatenated text is non-empty. -/
def processedB (text_fields : List String) (d : StoredDoc) : Bool :=
  missingEmbedding d && !(docText text_fields d == "")

/-- A concrete embedding provider used in witnesses. -/
def witProvider : String → List Score := fun _ => [1, 2, 3]

/-- The vector-search version of document identity "A" in the C1
counterexample. -/
def cexVecDoc : Doc :=
  ⟨"A", some ("vector version"), some ("E1"), none, some ("vec raw"), none⟩

/-- The keyword-search version of the same document identity "A": same
`_id`, different field contents. -/
def cexKwDoc : Doc :=
  ⟨"A", some ("keyword version"), some ("E1"), none, some ("kw raw"), none⟩

/-- A concrete retrieved document used in witnesses. -/
def witDoc : Doc :=
  ⟨"B", some ("storage"), some ("WT42"), some ("cache pressure"), none, none⟩

/-- A stored document that already carries a non-empty embedding. -/
def witStoredFull : StoredDoc :=
  ⟨1, [("raw_log", "conn reset")], some [5], some ("older-model"), some 7⟩

/-- A stored document with no embedding and non-empty text. -/
def witStoredMissing : StoredDoc :=
  ⟨2, [("raw_log", " conn reset ")], none, none, none⟩

/-- A stored document with an empty embedding array and whitespace-only
text. -/
def witStoredBlank : StoredDoc :=
  ⟨3, [("raw_log", "   ")], some [], none, none⟩

/-! ### Association-list dictionary lemmas -/

section DictLemmas

variable {κ α : Type} [BEq κ] [LawfulBEq κ]

lemma beqComm (a b : κ) : (a == b) = (b == a) := by
  rcases h : a == b with _ | _
  · rcases h2 : b == a with _ | _
    · rfl
    · exact absurd (eq_of_beq h2).symm (by simpa using h)
  · simp [eq_of_beq h]

lemma dictFind_cons (k1 : κ) (v : α) (m : List (κ × α)) (k : κ) :
    dictFind ((k1, v) :: m) k = if k1 == k then some v else dictFind m k := by
  by_cases h : (k1 == k) = true
  · simp [dictFind, List.find?, h]
  · simp only [Bool.not_eq_true] at h
    simp [dictFind, List.find?, h]

lemma any_eq_contains (m : List (κ × α)) (k : κ) :
    m.any (fun p => p.1 == k) = (m.map Prod.fst).contains k := by
  induction m with
  | nil => rfl
  | cons p t ih =>
      simp only [List.any_cons, List.map_cons, List.contains_cons, ih]
      rw [beqComm k p.1]

lemma dictInsert_cons_ne {k1 k : κ} (v1 : α) (m : List (κ × α)) (v : α)
    (h : (k1 == k) = false) :
    dictInsert ((k1, v1) :: m) k v = (k1, v1) :: dictInsert m k v := by
  by_cases hm : m.any (fun p => p.1 == k)
  · simp [dictInsert, List.any_cons, h, hm]
  · simp only [Bool.not_eq_true] at hm
    simp [dictInsert, List.any_cons, h, hm]

lemma overwrite_map_id {k : κ} (v : α) (m : List (κ × α))
    (hm : ∀ p ∈ m, (p.1 == k) = false) :
    m.map (fun p => if p.1 == k then (p.1, v) else p) = m := by
  induction m with
  | nil => rfl
  | cons p t ih =>
      simp only [List.map_cons, hm p (by simp), Bool.false_eq_true, if_false]
      rw [ih (fun q hq => hm q (by simp [hq]))]

lemma dictFind_dictInsert_self (m : List (κ × α)) (k : κ) (v : α) :
    dictFind (dictInsert m k v) k = some v := by
  induction m with
  | nil => simp [dictInsert, dictFind, List.find?]
  | cons p t ih =>
      obtain ⟨k1, v1⟩ := p
      by_cases h : (k1 == k) = true
      · have hany : ((k1, v1) :: t).any (fun p => p.1 == k) = true := by
          simp [List.any_cons, h]
        simp [dictInsert, hany, dictFind_cons, h]
      · simp only [Bool.not_eq_true] at h
        rw [dictInsert_cons_ne v1 t v h, dictFind_cons]
        simp [h, ih]

lemma dictFind_overwrite_of_ne (t : List (κ × α)) (k : κ) (v : α) (k2 : κ)
    (h : (k == k2) = false) :
    dictFind (t.map (fun p => if p.1 == k then (p.1, v) else p)) k2
      = dictFind t k2 := by
  induction t with
  | nil => rfl
  | cons q r ihr =>
      obtain ⟨kq, vq⟩ := q
      by_cases hq : (kq == k) = true
      · have hq2 : (kq == k2) = false := by rw [eq_of_beq hq]; exact h
        simpa [hq, hq2, dictFind_cons] using ihr
      · simp only [Bool.not_eq_true] at hq
        simp only [List.map_cons, hq, Bool.false_eq_true, if_false]
        rw [dictFind_cons, dictFind_cons]
        by_cases hq2 : (kq == k2) = true
        · simp [hq2]
        · simp only [Bool.not_eq_true] at hq2
          simpa [hq2] using ihr

lemma dictFind_dictInsert_of_ne (m : List (κ × α)) (k : κ) (v : α) (k2 : κ)
    (h : (k == k2) = false) :
    dictFind (dictInsert m k v) k2 = dictFind m k2 := by
  induction m with
  | nil => simp [dictInsert, dictFind, List.find?, h]
  | cons p t ih =>
      obtain ⟨k1, v1⟩ := p
      by_cases h1 : (k1 == k) = true
      · have hany : ((k1, v1) :: t).any (fun p => p.1 == k) = true := by
          simp [List.any_cons, h1]
        have h12 : (k1 == k2) = false := by rw [eq_of_beq h1]; exact h
        simp only [dictInsert, hany, if_true, List.map_cons, h1, if_pos rfl]
        rw [dictFind_cons, dictFind_cons, h12]
        simp only [Bool.false_eq_true, if_false]
        exact dictFind_overwrite_of_ne t k v k2 h
      · simp only [Bool.not_eq_true] at h1
        rw [dictInsert_cons_ne v1 t v h1, dictFind_cons, dictFind_cons]
        by_cases h12 : (k1 == k2) = true
        · simp [h12]
        · simp only [Bool.not_eq_true] at h12
          simp [h12, ih]

lemma keys_dictInsert (m : List (κ × α)) (k : κ) (v : α) :
    (dictInsert m k v).map Prod.fst
      = if (m.map Prod.fst).contains k then m.map Prod.fst
        else m.map Prod.fst ++ [k] := by
  rw [← any_eq_contains]
  by_cases hm : m.any (fun p => p.1 == k) = true
  · have hf : (Prod.fst ∘ fun p : κ × α => if p.1 == k then (p.1, v) else p)
        = (Prod.fst : κ × α → κ) := by
      funext p
      by_cases h : (p.1 == k) = true <;> simp [h]
    simp only [dictInsert, hm, if_true, List.map_map, hf]
  · simp only [Bool.not_eq_true] at hm
    simp [dictInsert, hm]

lemma pyDict_append_singleton (l : List (κ × α)) (p : κ × α) :
    pyDict (l ++ [p]) = dictInsert (pyDict l) p.1 p.2 := by
  simp [pyDict, List.foldl_append]

lemma dictFind_pyDict (l : List (κ × α)) (k : κ) :
    dictFind (pyDict l) k
      = ((l.filter (fun p => p.1 == k)).getLast?).map Prod.snd := by
  induction l using List.reverseRecOn with
  | nil => rfl
  | append_singleton t p ih =>
      rw [pyDict_append_singleton]
      by_cases h : (p.1 == k) = true
      · have hpk : p.1 = k := eq_of_beq h
        rw [hpk, dictFind_dictInsert_self]
        simp [List.filter_append, h, List.getLast?_concat]
      · simp only [Bool.not_eq_true] at h
        rw [dictFind_dictInsert_of_ne _ _ _ _ h, ih]
        simp [List.filter_append, h]

lemma mem_dictInsert (p : κ × α) (m : List (κ × α)) (k : κ) (v : α)
    (h : p ∈ dictInsert m k v) : p ∈ m ∨ p = (k, v) := by
  by_cases hm : m.any (fun q => q.1 == k) = true
  · simp only [dictInsert, hm, if_true, List.mem_map] at h
    obtain ⟨q, hq, hqe⟩ := h
    by_cases hqk : (q.1 == k) = true
    · right
      rw [← hqe]
      simp [hqk, eq_of_beq hqk]
    · left
      simp only [Bool.not_eq_true] at hqk
      rw [← hqe]
      simp [hqk, hq]
  · simp only [Bool.not_eq_true] at hm
    simp only [dictInsert, hm, Bool.false_eq_true, if_false,
      List.mem_append, List.mem_singleton] at h
    exact h

lemma mem_foldl_dictInsert (l : List (κ × α)) (m : List (κ × α)) (p : κ × α)
    (h : p ∈ l.foldl (fun m q => dictInsert m q.1 q.2) m) :
    p ∈ m ∨ p ∈ l := by
  induction l generalizing m with
  | nil => exact Or.inl h
  | cons q t ih =>
      rcases ih (dictInsert m q.1 q.2) h with h2 | h2
      · rcases mem_dictInsert p _ _ _ h2 with h3 | h3
        · exact Or.inl h3
        · right
          simp [h3]
      · right
        simp [h2]

lemma mem_pyDict (l : List (κ × α)) (p : κ × α) (h : p ∈ pyDict l) : p ∈ l := by
  rcases mem_foldl_dictInsert l [] p h with h2 | h2
  · exact absurd h2 (List.not_mem_nil p)
  · exact h2

lemma keys_foldl_dictInsert (l : List (κ × α)) (m : List (κ × α)) :
    (l.foldl (fun m q => dictInsert m q.1 q.2) m).map Prod.fst
      = (l.map Prod.fst).foldl addKey (m.map Prod.fst) := by
  induction l generalizing m with
  | nil => rfl
  | cons q t ih =>
      simp only [List.foldl_cons, List.map_cons, ih, keys_dictInsert, addKey]

lemma pyDict_keys (l : List (κ × α)) :
    (pyDict l).map Prod.fst = firstDedup (l.map Prod.fst) := by
  simpa using keys_foldl_dictInsert l []

lemma addKey_of_mem (ks : List κ) (b : κ) (hb : b ∈ ks) : addKey ks b = ks := by
  simp [addKey, hb]

lemma addKey_of_not_mem (ks : List κ) (b : κ) (hb : b ∉ ks) :
    addKey ks b = ks ++ [b] := by
  simp [addKey, hb]

lemma foldl_addKey_split (B : List κ) (ks : List κ) :
    B.foldl addKey ks = ks ++ (firstDedup B).filter (fun k => !ks.contains k) := by
  induction B generalizing ks with
  | nil => simp [firstDedup]
  | cons b t ih =>
      have hfd : firstDedup (b :: t)
          = [b] ++ (firstDedup t).filter (fun k => !([b].contains k)) := by
        have h0 : firstDedup (b :: t) = t.foldl addKey [b] := by
          have : addKey [] b = [b] := rfl
          simp [firstDedup, List.foldl_cons, this]
        rw [h0, ih]
      by_cases hb : b ∈ ks
      · rw [List.foldl_cons, addKey_of_mem ks b hb, ih, hfd]
        congr 1
        simp only [List.filter_append]
        have h1 : [b].filter (fun k => !ks.contains k) = [] := by
          simp [hb]
        rw [h1, List.nil_append, List.filter_filter]
        apply List.filter_congr
        intro a ha
        by_cases hak : a ∈ ks
        · simp [hak]
        · have hne : a ≠ b := fun he => hak (he ▸ hb)
          simp [hak, hne]
      · rw [List.foldl_cons, addKey_of_not_mem ks b hb, ih, hfd]
        simp only [List.filter_append, List.append_assoc]
        congr 1
        have h1 : [b].filter (fun k => !ks.contains k) = [b] := by
          simp [hb]
        rw [h1, List.filter_filter]
        congr 1
        apply List.filter_congr
        intro a ha
        by_cases h2 : a ∈ ks <;> by_cases h3 : a = b <;>
          simp [h2, h3]

lemma mem_addKey (ks : List κ) (b a : κ) :
    a ∈ addKey ks b ↔ a ∈ ks ∨ a = b := by
  by_cases hb : b ∈ ks
  · rw [addKey_of_mem ks b hb]
    constructor
    · exact fun h => Or.inl h
    · rintro (h | rfl)
      · exact h
      · exact hb
  · rw [addKey_of_not_mem ks b hb]
    simp

lemma mem_foldl_addKey (B : List κ) (ks : List κ) (a : κ) :
    a ∈ B.foldl addKey ks ↔ a ∈ ks ∨ a ∈ B := by
  induction B generalizing ks with
  | nil => simp
  | cons b t ih =>
      rw [List.foldl_cons, ih, mem_addKey]
      simp only [List.mem_cons]
      tauto

lemma mem_firstDedup (A : List κ) (a : κ) : a ∈ firstDedup A ↔ a ∈ A := by
  rw [firstDedup, mem_foldl_addKey]
  simp

lemma firstDedup_append (A B : List κ) :
    firstDedup (A ++ B)
      = firstDedup A ++ (firstDedup B).filter (fun k => !A.contains k) := by
  have h1 : firstDedup (A ++ B) = B.foldl addKey (firstDedup A) := by
    simp [firstDedup, List.foldl_append]
  rw [h1, foldl_addKey_split]
  congr 1
  apply List.filter_congr
  intro a ha
  have h2 : (firstDedup A).contains a = A.contains a := by
    by_cases h : a ∈ A
    · have h3 : a ∈ firstDedup A := (mem_firstDedup A a).mpr h
      simp [h, h3]
    · have h3 : a ∉ firstDedup A := fun hc => h ((mem_firstDedup A a).mp hc)
      simp [h, h3]
  rw [h2]

lemma firstDedup_nodup (A : List κ) : (firstDedup A).Nodup := by
  have main : ∀ (B : List κ) (ks : List κ), ks.Nodup → (B.foldl addKey ks).Nodup := by
    intro B
    induction B with
    | nil => exact fun ks h => h
    | cons b t ih =>
        intro ks hks
        rw [List.foldl_cons]
        apply ih
        by_cases hb : b ∈ ks
        · rw [addKey_of_mem ks b hb]
          exact hks
        · rw [addKey_of_not_mem ks b hb]
          refine List.Nodup.append hks (List.nodup_singleton b) ?_
          intro a ha hbm
          rw [List.mem_singleton] at hbm
          exact hb (hbm ▸ ha)
  exact main A [] (by simp)

lemma addKey_length_le (ks : List κ) (b : κ) :
    (addKey ks b).length ≤ ks.length + 1 := by
  by_cases hb : b ∈ ks
  · rw [addKey_of_mem ks b hb]
    omega
  · rw [addKey_of_not_mem ks b hb]
    simp

lemma firstDedup_length_le (A : List κ) : (firstDedup A).length ≤ A.length := by
  have main : ∀ (B : List κ) (ks : List κ),
      (B.foldl addKey ks).length ≤ ks.length + B.length := by
    intro B
    induction B with
    | nil => simp
    | cons b t ih =>
        intro ks
        rw [List.foldl_cons]
        refine le_trans (ih (addKey ks b)) ?_
        have := addKey_length_le ks b
        simp only [List.length_cons]
        omega
  simpa using main A []

end DictLemmas

/-! ### Stable descending sort lemmas -/

section SortLemmas

variable {α : Type} (key : α → Score)

lemma insertDesc_perm (x : α) (l : List α) : List.Perm (insertDesc key x l) (x :: l) := by
  induction l with
  | nil => exact List.Perm.refl _
  | cons y ys ih =>
      by_cases h : key y ≤ key x
      · simp [insertDesc, h]
      · simp only [insertDesc, h, if_false]
        exact (ih.cons y).trans (List.Perm.swap x y ys)

lemma sortDesc_perm (l : List α) : List.Perm (sortDesc key l) l := by
  induction l with
  | nil => exact List.Perm.refl _
  | cons x xs ih =>
      exact (insertDesc_perm key x (sortDesc key xs)).trans (ih.cons x)

lemma insertDesc_sorted (x : α) (l : List α)
    (h : l.Pairwise (fun a b => key b ≤ key a)) :
    (insertDesc key x l).Pairwise (fun a b => key b ≤ key a) := by
  induction l with
  | nil => simp [insertDesc]
  | cons y ys ih =>
      by_cases hyx : key y ≤ key x
      · simp only [insertDesc, hyx, if_true]
        refine List.Pairwise.cons ?_ h
        intro z hz
        rcases List.mem_cons.mp hz with rfl | hz2
        · exact hyx
        · exact le_trans (List.rel_of_pairwise_cons h hz2) hyx
      · simp only [insertDesc, hyx, if_false]
        refine List.Pairwise.cons ?_ (ih (List.Pairwise.sublist (List.sublist_cons_self y ys) h))
        intro z hz
        have hz2 : z ∈ x :: ys := (insertDesc_perm key x ys).mem_iff.mp hz
        rcases List.mem_cons.mp hz2 with rfl | hz3
        · exact le_of_lt (lt_of_not_le hyx)
        · exact List.rel_of_pairwise_cons h hz3

lemma sortDesc_sorted (l : List α) :
    (sortDesc key l).Pairwise (fun a b => key b ≤ key a) := by
  induction l with
  | nil => simp [sortDesc]
  | cons x xs ih => exact insertDesc_sorted key x (sortDesc key xs) ih

lemma insertDesc_filter (x : α) (l : List α) (c : Score) :
    (insertDesc key x l).filter (fun a => decide (key a = c))
      = if key x = c then x :: l.filter (fun a => decide (key a = c))
        else l.filter (fun a => decide (key a = c)) := by
  induction l with
  | nil =>
      by_cases hx : key x = c <;> simp [insertDesc, hx]
  | cons y ys ih =>
      simp only [insertDesc]
      by_cases hyx : key y ≤ key x
      · rw [if_pos hyx]
        by_cases hx : key x = c <;> by_cases hyc : key y = c <;>
          simp [List.filter_cons, hx, hyc]
      · rw [if_neg hyx]
        by_cases hx : key x = c
        · have hyc : ¬ key y = c := by
            intro hyc
            exact hyx (le_of_eq (by rw [hx, hyc]))
          simp [List.filter_cons, hx, hyc, ih]
        · by_cases hyc : key y = c <;>
            simp [List.filter_cons, hx, hyc, ih]

lemma sortDesc_filter (l : List α) (c : Score) :
    (sortDesc key l).filter (fun a => decide (key a = c))
      = l.filter (fun a => decide (key a = c)) := by
  induction l with
  | nil => rfl
  | cons x xs ih =>
      rw [sortDesc, insertDesc_filter]
      by_cases hx : key x = c <;> simp [hx, ih]

end SortLemmas

/-! ### Adaptive loop lemmas -/

section LoopLemmas

/-- Boolean equality on `Strat` evaluates by deciding propositional
equality, so `simp` can reduce it on concrete constructors. -/
@[simp] lemma strat_beq (a b : Strat) : (a == b) = decide (a = b) := by
  cases a <;> cases b <;> rfl

variable (q : String) (d : Nat → Strat → List Doc) (p : Nat)

lemma judge_nonneg (a : String) : 0 ≤ judge a := by
  simp only [judge]
  have h1 : (0 : Score) ≤ if containsStr a ("Component:") then 4/10 else 0 := by
    split <;> norm_num
  have h2 : (0 : Score) ≤ if containsStr a ("Likely Cause") then 3/10 else 0 := by
    split <;> norm_num
  have h3 : (0 : Score) ≤ if containsStr a ("Suggested Fix") then 3/10 else 0 := by
    split <;> norm_num
  linarith

lemma scoreAnswer_nonneg (a : Option String) : 0 ≤ scoreAnswer a := by
  rcases a with _ | s
  · simp [scoreAnswer]
  · simp only [scoreAnswer]
    split
    · exact le_refl 0
    · exact judge_nonneg s

lemma foldl_step_events (L : List (Strat × Nat)) :
    ∀ st : LoopState,
      (L.foldl (stepStrategy q d p) st).events
        = st.events ++ L.map (fun sk => Event.metric sk.1 p (passScore q d p sk.1)) := by
  induction L with
  | nil => intro st; simp
  | cons sk t ih =>
      intro st
      rw [List.foldl_cons, ih]
      simp [stepStrategy, passScore, List.append_assoc]

lemma foldl_step_scores_not_mem (L : List (Strat × Nat)) (s : Strat) :
    ∀ st : LoopState, s ∉ L.map Prod.fst →
      dictFind ((L.foldl (stepStrategy q d p) st).scores) s
        = dictFind st.scores s := by
  induction L with
  | nil => intro st _; rfl
  | cons sk t ih =>
      intro st h
      rw [List.foldl_cons, ih _ (fun hc => h (by simp [hc]))]
      have hne : (sk.1 == s) = false := by
        have h2 : sk.1 ≠ s := fun he => h (by simp [he])
        simpa using h2
      simp only [stepStrategy]
      exact dictFind_dictInsert_of_ne _ _ _ _ hne

lemma foldl_step_answers_not_mem (L : List (Strat × Nat)) (s : Strat) :
    ∀ st : LoopState, s ∉ L.map Prod.fst →
      dictFind ((L.foldl (stepStrategy q d p) st).answers) s
        = dictFind st.answers s := by
  induction L with
  | nil => intro st _; rfl
  | cons sk t ih =>
      intro st h
      rw [List.foldl_cons, ih _ (fun hc => h (by simp [hc]))]
      have hne : (sk.1 == s) = false := by
        have h2 : sk.1 ≠ s := fun he => h (by simp [he])
        simpa using h2
      simp only [stepStrategy]
      exact dictFind_dictInsert_of_ne _ _ _ _ hne

lemma foldl_step_scores_once (L : List (Strat × Nat)) (s : Strat) :
    ∀ st : LoopState, (L.map Prod.fst).Nodup → s ∈ L.map Prod.fst →
      dictFind ((L.foldl (stepStrategy q d p) st).scores) s
        = some (max (dictGetD st.scores s 0) (passScore q d p s)) := by
  induction L with
  | nil => intro st _ h; simp at h
  | cons sk t ih =>
      intro st hnd hmem
      have hnd2 : (sk.1 :: t.map Prod.fst).Nodup := by simpa using hnd
      rw [List.foldl_cons]
      by_cases he : sk.1 = s
      · have hs : s ∉ t.map Prod.fst := he ▸ (List.nodup_cons.mp hnd2).1
        rw [foldl_step_scores_not_mem q d p t s _ hs]
        simp only [stepStrategy]
        rw [he, dictFind_dictInsert_self]
        rfl
      · have hs2 : s ∈ t.map Prod.fst := by
          have h0 : s ∈ (sk :: t).map Prod.fst := hmem
          simp only [List.map_cons, List.mem_cons] at h0
          rcases h0 with h2 | h2
          · exact absurd h2.symm he
          · exact h2
        have hnd3 : (t.map Prod.fst).Nodup := (List.nodup_cons.mp hnd2).2
        rw [ih _ (by simpa using hnd3) hs2]
        have hne : (sk.1 == s) = false := by simpa using he
        simp only [stepStrategy, dictGetD]
        rw [dictFind_dictInsert_of_ne _ _ _ _ hne]

lemma foldl_step_answers_once (L : List (Strat × Nat)) (s : Strat) :
    ∀ st : LoopState, (L.map Prod.fst).Nodup → s ∈ L.map Prod.fst →
      dictFind ((L.foldl (stepStrategy q d p) st).answers) s
        = some (passAnswer q d p s) := by
  induction L with
  | nil => intro st _ h; simp at h
  | cons sk t ih =>
      intro st hnd hmem
      have hnd2 : (sk.1 :: t.map Prod.fst).Nodup := by simpa using hnd
      rw [List.foldl_cons]
      by_cases he : sk.1 = s
      · have hs : s ∉ t.map Prod.fst := he ▸ (List.nodup_cons.mp hnd2).1
        rw [foldl_step_answers_not_mem q d p t s _ hs]
        simp only [stepStrategy]
        rw [he, dictFind_dictInsert_self]
        rfl
      · have hs2 : s ∈ t.map Prod.fst := by
          have h0 : s ∈ (sk :: t).map Prod.fst := hmem
          simp only [List.map_cons, List.mem_cons] at h0
          rcases h0 with h2 | h2
          · exact absurd h2.symm he
          · exact h2
        have hnd3 : (t.map Prod.fst).Nodup := (List.nodup_cons.mp hnd2).2
        exact ih _ (by simpa using hnd3) hs2

lemma foldl_step_scores_keys (L : List (Strat × Nat)) :
    ∀ st : LoopState, (∀ sk ∈ L, sk.1 ∈ st.scores.map Prod.fst) →
      (L.foldl (stepStrategy q d p) st).scores.map Prod.fst
        = st.scores.map Prod.fst := by
  induction L with
  | nil => intro st _; rfl
  | cons sk t ih =>
      intro st h
      rw [List.foldl_cons]
      have hk : (stepStrategy q d p st sk).scores.map Prod.fst
          = st.scores.map Prod.fst := by
        simp only [stepStrategy]
        rw [keys_dictInsert]
        have hcm : sk.1 ∈ st.scores.map Prod.fst := h sk (by simp)
        simp [hcm]
      rw [ih _ ?_, hk]
      intro sk2 hsk2
      rw [hk]
      exact h sk2 (by simp [hsk2])

lemma pass0_state : (pass0 q d).2 =
    { scores :=
        [(.logs_vector, max 0 (passScore q d 0 .logs_vector)),
         (.logs_hybrid, max 0 (passScore q d 0 .logs_hybrid)),
         (.knowledge_vector, max 0 (passScore q d 0 .knowledge_vector)),
         (.rewrite_knowledge, max 0 (passScore q d 0 .rewrite_knowledge))],
      answers :=
        [(.logs_vector, passAnswer q d 0 .logs_vector),
         (.logs_hybrid, passAnswer q d 0 .logs_hybrid),
         (.knowledge_vector, passAnswer q d 0 .knowledge_vector),
         (.rewrite_knowledge, passAnswer q d 0 .rewrite_knowledge)],
      events :=
        [Event.metric .logs_vector 0 (passScore q d 0 .logs_vector),
         Event.metric .logs_hybrid 0 (passScore q d 0 .logs_hybrid),
         Event.metric .knowledge_vector 0 (passScore q d 0 .knowledge_vector),
         Event.metric .rewrite_knowledge 0 (passScore q d 0 .rewrite_knowledge),
         Event.resort 0] } := by
  simp [pass0, runPass, initialStrategies, initState, stepStrategy, dictInsert,
    dictGetD, dictFind, List.find?, passScore, passAnswer]

lemma pass0_strats_perm :
    List.Perm (pass0 q d).1 initialStrategies := by
  simp only [pass0, runPass]
  exact sortDesc_perm _ _

lemma pass0_strats_keys_nodup : ((pass0 q d).1.map Prod.fst).Nodup := by
  have hp := (pass0_strats_perm q d).map Prod.fst
  rw [List.Perm.nodup_iff hp]
  simp [initialStrategies]

lemma pass0_strats_keys_mem (s : Strat) : s ∈ (pass0 q d).1.map Prod.fst := by
  have hp := (pass0_strats_perm q d).map Prod.fst
  rw [List.Perm.mem_iff hp]
  cases s <;> simp [initialStrategies]

lemma final_scores_find (s : Strat) :
    dictFind (adaptiveLoop q d).scores s = some (bestScore q d s) := by
  have h1 : dictFind (adaptiveLoop q d).scores s
      = some (max (dictGetD (pass0 q d).2.scores s 0) (passScore q d 1 s)) := by
    simp only [adaptiveLoop, runPass]
    exact foldl_step_scores_once q d 1 (pass0 q d).1 s (pass0 q d).2
      (pass0_strats_keys_nodup q d) (pass0_strats_keys_mem q d s)
  rw [h1]
  have h2 : dictGetD (pass0 q d).2.scores s 0 = max 0 (passScore q d 0 s) := by
    rw [pass0_state]
    cases s <;> simp [dictGetD, dictFind, List.find?]
  have hnn : 0 ≤ passScore q d 0 s := scoreAnswer_nonneg _
  rw [h2, max_comm 0 (passScore q d 0 s), max_eq_left hnn]
  rfl

lemma final_answers_find (s : Strat) :
    dictFind (adaptiveLoop q d).answers s = some (passAnswer q d 1 s) := by
  simp only [adaptiveLoop, runPass]
  exact foldl_step_answers_once q d 1 (pass0 q d).1 s (pass0 q d).2
    (pass0_strats_keys_nodup q d) (pass0_strats_keys_mem q d s)

lemma final_scores_keys :
    (adaptiveLoop q d).scores.map Prod.fst
      = [.logs_vector, .logs_hybrid, .knowledge_vector, .rewrite_knowledge] := by
  have h1 : (adaptiveLoop q d).scores.map Prod.fst
      = (pass0 q d).2.scores.map Prod.fst := by
    simp only [adaptiveLoop, runPass]
    apply foldl_step_scores_keys
    intro sk hsk
    rw [pass0_state]
    cases sk.1 <;> simp
  rw [h1, pass0_state]
  simp

lemma final_events :
    (adaptiveLoop q d).events
      = (initialStrategies.map
          (fun sk => Event.metric sk.1 0 (passScore q d 0 sk.1)))
        ++ [Event.resort 0]
        ++ ((pass0 q d).1.map
          (fun sk => Event.metric sk.1 1 (passScore q d 1 sk.1)))
        ++ [Event.resort 1] := by
  have h1 : (adaptiveLoop q d).events
      = (pass0 q d).2.events
        ++ ((pass0 q d).1.map
          (fun sk => Event.metric sk.1 1 (passScore q d 1 sk.1)))
        ++ [Event.resort 1] := by
    simp only [adaptiveLoop, runPass]
    rw [foldl_step_events]
  rw [h1, pass0_state]
  simp [initialStrategies, List.append_assoc]

lemma assoc_four_eq (m : List (Strat × Score)) (f : Strat → Score)
    (hk : m.map Prod.fst
      = [.logs_vector, .logs_hybrid, .knowledge_vector, .rewrite_knowledge])
    (hf : ∀ s, dictFind m s = some (f s)) :
    m = [(.logs_vector, f .logs_vector), (.logs_hybrid, f .logs_hybrid),
         (.knowledge_vector, f .knowledge_vector),
         (.rewrite_knowledge, f .rewrite_knowledge)] := by
  rcases m with _ | ⟨p1, m⟩
  · simp at hk
  rcases m with _ | ⟨p2, m⟩
  · simp at hk
  rcases m with _ | ⟨p3, m⟩
  · simp at hk
  rcases m with _ | ⟨p4, m⟩
  · simp at hk
  rcases m with _ | ⟨p5, m⟩
  case cons.cons.cons.cons.cons => simp at hk
  obtain ⟨k1, v1⟩ := p1
  obtain ⟨k2, v2⟩ := p2
  obtain ⟨k3, v3⟩ := p3
  obtain ⟨k4, v4⟩ := p4
  simp only [List.map_cons, List.map_nil, List.cons.injEq, and_true] at hk
  obtain ⟨h1, h2, h3, h4⟩ := hk
  subst h1
  subst h2
  subst h3
  subst h4
  have e1 := hf .logs_vector
  have e2 := hf .logs_hybrid
  have e3 := hf .knowledge_vector
  have e4 := hf .rewrite_knowledge
  simp only [dictFind, List.find?] at e1 e2 e3 e4
  simp at e1 e2 e3 e4
  simp [e1, e2, e3, e4]

lemma pyMaxKey_four (f : Strat → Score) :
    ∃ w : Strat,
      pyMaxKey [(.logs_vector, f .logs_vector), (.logs_hybrid, f .logs_hybrid),
          (.knowledge_vector, f .knowledge_vector),
          (.rewrite_knowledge, f .rewrite_knowledge)] = some w
        ∧ (∀ s, f s ≤ f w)
        ∧ (∀ s, canonIdx s < canonIdx w → f s < f w) := by
  by_cases h1 : f .logs_hybrid > f .logs_vector
  · by_cases h2 : f .knowledge_vector > f .logs_hybrid
    · by_cases h3 : f .rewrite_knowledge > f .knowledge_vector
      · exact ⟨.rewrite_knowledge,
          by simp [pyMaxKey, List.foldl_cons, List.foldl_nil, h1, h2, h3],
          fun s => by cases s <;> linarith,
          fun s hs => by cases s <;> simp [canonIdx] at hs <;> linarith⟩
      · exact ⟨.knowledge_vector,
          by simp [pyMaxKey, List.foldl_cons, List.foldl_nil, h1, h2, h3],
          fun s => by cases s <;> linarith,
          fun s hs => by cases s <;> simp [canonIdx] at hs <;> linarith⟩
    · by_cases h3 : f .rewrite_knowledge > f .logs_hybrid
      · exact ⟨.rewrite_knowledge,
          by simp [pyMaxKey, List.foldl_cons, List.foldl_nil, h1, h2, h3],
          fun s => by cases s <;> linarith,
          fun s hs => by cases s <;> simp [canonIdx] at hs <;> linarith⟩
      · exact ⟨.logs_hybrid,
          by simp [pyMaxKey, List.foldl_cons, List.foldl_nil, h1, h2, h3],
          fun s => by cases s <;> linarith,
          fun s hs => by cases s <;> simp [canonIdx] at hs <;> linarith⟩
  · by_cases h2 : f .knowledge_vector > f .logs_vector
    · by_cases h3 : f .rewrite_knowledge > f .knowledge_vector
      · exact ⟨.rewrite_knowledge,
          by simp [pyMaxKey, List.foldl_cons, List.foldl_nil, h1, h2, h3],
          fun s => by cases s <;> linarith,
          fun s hs => by cases s <;> simp [canonIdx] at hs <;> linarith⟩
      · exact ⟨.knowledge_vector,
          by simp [pyMaxKey, List.foldl_cons, List.foldl_nil, h1, h2, h3],
          fun s => by cases s <;> linarith,
          fun s hs => by cases s <;> simp [canonIdx] at hs <;> linarith⟩
    · by_cases h3 : f .rewrite_knowledge > f .logs_vector
      · exact ⟨.rewrite_knowledge,
          by simp [pyMaxKey, List.foldl_cons, List.foldl_nil, h1, h2, h3],
          fun s => by cases s <;> linarith,
          fun s hs => by cases s <;> simp [canonIdx] at hs <;> linarith⟩
      · exact ⟨.logs_vector,
          by simp [pyMaxKey, List.foldl_cons, List.foldl_nil, h1, h2, h3],
          fun s => by cases s <;> linarith,
          fun s hs => by cases s <;> simp [canonIdx] at hs <;> linarith⟩

lemma finishResult_eq_found (st : LoopState) (w : Strat)
    (hw : pyMaxKey st.scores = some w) :
    finishResult st
      = AdaptiveResult.found ((dictFind st.answers w).join) w
          (dictGetD st.scores w 0) := by
  simp only [finishResult, hw]

lemma adaptive_spec :
    ∃ w : Strat,
      adaptive_retrieval q d
        = AdaptiveResult.found (passAnswer q d 1 w) w (bestScore q d w)
      ∧ (∀ s, bestScore q d s ≤ bestScore q d w)
      ∧ (∀ s, canonIdx s < canonIdx w → bestScore q d s < bestScore q d w) := by
  obtain ⟨w, hw, hmax, hties⟩ := pyMaxKey_four (bestScore q d)
  have hlist : (adaptiveLoop q d).scores
      = [(.logs_vector, bestScore q d .logs_vector),
         (.logs_hybrid, bestScore q d .logs_hybrid),
         (.knowledge_vector, bestScore q d .knowledge_vector),
         (.rewrite_knowledge, bestScore q d .rewrite_knowledge)] :=
    assoc_four_eq _ _ (final_scores_keys q d) (final_scores_find q d)
  have hw2 : pyMaxKey (adaptiveLoop q d).scores = some w := by
    rw [hlist]
    exact hw
  refine ⟨w, ?_, hmax, hties⟩
  rw [adaptive_retrieval, finishResult_eq_found _ w hw2, final_answers_find q d w]
  have hg2 : dictGetD (adaptiveLoop q d).scores w 0 = bestScore q d w := by
    rw [dictGetD, final_scores_find q d w]
    rfl
  rw [hg2]
  rfl

end LoopLemmas

/-! ### Answer template and judge lemmas -/

section JudgeLemmas

lemma isPrefixB_append (n a b : List Char) (h : isPrefixB n a = true) :
    isPrefixB n (a ++ b) = true := by
  induction n generalizing a with
  | nil => rfl
  | cons c cs ih =>
      cases a with
      | nil => simp [isPrefixB] at h
      | cons x xs =>
          simp only [List.cons_append, isPrefixB, Bool.and_eq_true] at h ⊢
          exact ⟨h.1, ih xs h.2⟩

lemma containsSub_nil_needle (l : List Char) : containsSub l [] = true := by
  cases l <;> simp [containsSub, isPrefixB, List.isEmpty]

lemma containsSub_append_left (a b n : List Char) (h : containsSub a n = true) :
    containsSub (a ++ b) n = true := by
  induction a with
  | nil =>
      simp only [containsSub, List.isEmpty_iff] at h
      rw [h, List.nil_append]
      exact containsSub_nil_needle b
  | cons c t ih =>
      simp only [containsSub, Bool.or_eq_true] at h
      simp only [List.cons_append, containsSub, Bool.or_eq_true]
      rcases h with h | h
      · left
        have h2 := isPrefixB_append n (c :: t) b h
        simpa using h2
      · right
        exact ih h

lemma containsSub_append_right (a b n : List Char) (h : containsSub b n = true) :
    containsSub (a ++ b) n = true := by
  induction a with
  | nil => simpa using h
  | cons c t ih =>
      simp only [List.cons_append, containsSub, Bool.or_eq_true]
      right
      exact ih

lemma containsStr_append_left (s t n : String) (h : containsStr s n = true) :
    containsStr (s ++ t) n = true := by
  simp only [containsStr, String.data_append]
  exact containsSub_append_left _ _ _ h

lemma containsStr_append_right (s t n : String) (h : containsStr t n = true) :
    containsStr (s ++ t) n = true := by
  simp only [containsStr, String.data_append]
  exact containsSub_append_right _ _ _ h

lemma template_marker_component (d : Doc) :
    containsStr (answerTemplate d) "Component:" = true := by
  rw [answerTemplate]
  apply containsStr_append_left
  apply containsStr_append_left
  apply containsStr_append_left
  apply containsStr_append_left
  apply containsStr_append_left
  apply containsStr_append_left
  decide

lemma template_marker_cause (d : Doc) :
    containsStr (answerTemplate d) "Likely Cause" = true := by
  rw [answerTemplate]
  apply containsStr_append_left
  apply containsStr_append_left
  apply containsStr_append_right
  decide

lemma template_marker_fix (d : Doc) :
    containsStr (answerTemplate d) "Suggested Fix" = true := by
  rw [answerTemplate]
  apply containsStr_append_right
  decide

lemma answerTemplate_ne_empty (d : Doc) : answerTemplate d ≠ "" := by
  intro h
  have h2 : (answerTemplate d).length = 0 := by rw [h]; rfl
  rw [answerTemplate, String.length_append, String.length_append,
    String.length_append, String.length_append, String.length_append,
    String.length_append] at h2
  have h3 : (0 : Nat)
      < ("\nMongoDB Issue Detected\n---------------------\nComponent: " : String).length := by
    decide
  omega

lemma judge_eq_one (a : String)
    (h1 : containsStr a ("Component:") = true)
    (h2 : containsStr a ("Likely Cause") = true)
    (h3 : containsStr a ("Suggested Fix") = true) : judge a = 1 := by
  rw [judge]
  simp only [h1, h2, h3, if_true]
  norm_num

end JudgeLemmas

/-! ### Embedding maintainer lemmas -/

section EnsureLemmas

lemma ensure_foldl (provider : String → List Score) (now : Nat)
    (fields : List String) (docs : List StoredDoc) :
    ∀ acc : List StoredDoc × Nat × List String,
      docs.foldl (ensureStep provider now fields) acc
        = (acc.1 ++ docs.map (ensureUpdate provider now fields),
           acc.2.1 + (docs.filter (processedB fields)).length,
           acc.2.2 ++ (docs.map (ensureCalls provider fields)).flatten) := by
  induction docs with
  | nil => intro acc; simp
  | cons dd t ih =>
      intro acc
      rw [List.foldl_cons, ih]
      by_cases hm : missingEmbedding dd = true
      · by_cases ht : docText fields dd = ""
        · simp [ensureStep, ensureUpdate, ensureCalls, processedB, hm, ht,
            List.filter_cons]
        · simp only [ensureStep, ensureUpdate, ensureCalls, processedB, hm, ht,
            List.filter_cons, List.map_cons, List.flatten_cons, if_true,
            if_false, Bool.true_and]
          have hb : (docText fields dd == "") = false := by
            simpa using ht
          simp [hb, List.append_assoc]
          omega
      · simp [ensureStep, ensureUpdate, ensureCalls, processedB, hm,
          List.filter_cons, List.append_assoc]

lemma ensure_spec (provider : String → List Score) (now : Nat)
    (fields : List String) (docs : List StoredDoc) :
    ensure_embeddings provider now fields docs
      = (docs.map (ensureUpdate provider now fields),
         (docs.filter (processedB fields)).length,
         (docs.map (ensureCalls provider fields)).flatten) := by
  have h := ensure_foldl provider now fields docs ([], 0, [])
  simpa [ensure_embeddings] using h

end EnsureLemmas

/-! ### Hybrid search lemmas -/

section HybridLemmas

lemma filter_singleton_of_nodup_keys {κ α : Type} [BEq κ] [LawfulBEq κ]
    (m : List (κ × α)) (i : κ) :
    ∀ _ : (m.map Prod.fst).Nodup, i ∈ m.map Prod.fst →
      ∃ v, m.filter (fun pr => pr.1 == i) = [(i, v)] ∧ dictFind m i = some v := by
  induction m with
  | nil => intro _ h; simp at h
  | cons p t ih =>
      intro hnd hmem
      obtain ⟨k1, v1⟩ := p
      have hnd2 : (k1 :: t.map Prod.fst).Nodup := by simpa using hnd
      by_cases he : k1 = i
      · subst he
        have hnk : k1 ∉ t.map Prod.fst := (List.nodup_cons.mp hnd2).1
        refine ⟨v1, ?_, ?_⟩
        · rw [List.filter_cons]
          have hc : ((k1, v1).1 == k1) = true := by simp
          simp only [hc, if_true]
          have hrest : t.filter (fun pr => pr.1 == k1) = [] := by
            rw [List.filter_eq_nil_iff]
            intro pr hpr
            intro hek
            apply hnk
            have : pr.1 = k1 := eq_of_beq hek
            rw [← this]
            exact List.mem_map_of_mem Prod.fst hpr
          rw [hrest]
        · rw [dictFind_cons]
          simp
      · have hmem2 : i ∈ t.map Prod.fst := by
          have h0 : i ∈ (k1 :: t.map Prod.fst) := by simpa using hmem
          rcases List.mem_cons.mp h0 with h2 | h2
          · exact absurd h2.symm he
          · exact h2
        obtain ⟨v, hv1, hv2⟩ := ih (List.nodup_cons.mp hnd2).2 hmem2
        refine ⟨v, ?_, ?_⟩
        · rw [List.filter_cons]
          have hc : ((k1, v1).1 == i) = false := by simpa using he
          simp only [hc, Bool.false_eq_true, if_false]
          exact hv1
        · rw [dictFind_cons]
          have hc : (k1 == i) = false := by simpa using he
          simp only [hc, Bool.false_eq_true, if_false]
          exact hv2

lemma hybrid_pairs_snd_id (vec kw : List Doc) (pr : String × Doc)
    (h : pr ∈ pyDict ((vec ++ kw).map (fun d2 => (d2.id, d2)))) :
    pr.2.id = pr.1 := by
  have h2 := mem_pyDict _ _ h
  simp only [List.mem_map] at h2
  obtain ⟨d2, hd2, he⟩ := h2
  rw [← he]

lemma hybrid_keys (vec kw : List Doc) :
    (pyDict ((vec ++ kw).map (fun d2 => (d2.id, d2)))).map Prod.fst
      = firstDedup (vec.map Doc.id)
        ++ (firstDedup (kw.map Doc.id)).filter
            (fun i => !((vec.map Doc.id).contains i)) := by
  rw [pyDict_keys]
  have h1 : ((vec ++ kw).map (fun d2 => (d2.id, d2))).map Prod.fst
      = vec.map Doc.id ++ kw.map Doc.id := by
    simp only [List.map_append, List.map_map]
    rfl
  rw [h1, firstDedup_append]

lemma hybrid_ids (vec kw : List Doc) :
    (hybrid_search vec kw).map Doc.id
      = (pyDict ((vec ++ kw).map (fun d2 => (d2.id, d2)))).map Prod.fst := by
  rw [hybrid_search, List.map_map]
  apply List.map_eq_map_iff.mpr
  intro pr hpr
  exact hybrid_pairs_snd_id vec kw pr hpr

end HybridLemmas

lemma pair_keys (vec kw : List Doc) :
    ((vec ++ kw).map (fun d2 => (d2.id, d2))).map Prod.fst
      = vec.map Doc.id ++ kw.map Doc.id := by
  simp only [List.map_append, List.map_map]
  rfl

/-! ### Claim theorems -/

/-- C1, counterexample.  The claim says hybrid search retains the
vector-search version of a document whose identity occurs in both result
lists.  The dict comprehension `{str(d["_id"]): d for d in vec + kw}`
(line 109) gives duplicate keys their *last* value, so with one vector hit
and one keyword hit sharing identity "A" the merged output is the keyword
version, which differs from the vector version — the claim is false. -/
theorem C1_counterexample :
    hybrid_search [cexVecDoc] [cexKwDoc] = [cexKwDoc]
      ∧ cexVecDoc ≠ cexKwDoc := by
  constructor
  · decide
  · decide

/-- C1, amended.  In `hybrid_search`, when a document identity appears in
the keyword-search results, the merged output contains exactly one document
with that identity, namely the *keyword-search* version (the last writer
into the identity-keyed merge map wins; a keyword hit overwrites the vector
hit with the same identity, keeping the vector hit's position). -/
theorem C1_amended_keyword_version_wins (vec kw : List Doc) (i : String)
    (h : i ∈ kw.map Doc.id) :
    ∃ d2 : Doc,
      (hybrid_search vec kw).filter (fun x => x.id == i) = [d2]
        ∧ (kw.filter (fun x => x.id == i)).getLast? = some d2 := by
  have hnd : ((pyDict ((vec ++ kw).map (fun d2 => (d2.id, d2)))).map
      Prod.fst).Nodup := by
    rw [pyDict_keys]
    exact firstDedup_nodup _
  have hmemk : i ∈ (pyDict ((vec ++ kw).map (fun d2 => (d2.id, d2)))).map
      Prod.fst := by
    rw [pyDict_keys, mem_firstDedup, pair_keys]
    exact List.mem_append.mpr (Or.inr h)
  obtain ⟨v, hfil, hfind⟩ :=
    filter_singleton_of_nodup_keys
      (pyDict ((vec ++ kw).map (fun d2 => (d2.id, d2)))) i hnd hmemk
  refine ⟨v, ?_, ?_⟩
  · rw [hybrid_search, List.map_filter]
    have hcg : (pyDict ((vec ++ kw).map (fun d2 => (d2.id, d2)))).filter
        ((fun x => x.id == i) ∘ Prod.snd)
        = (pyDict ((vec ++ kw).map (fun d2 => (d2.id, d2)))).filter
            (fun pr => pr.1 == i) := by
      apply List.filter_congr
      intro pr hpr
      show (pr.2.id == i) = (pr.1 == i)
      rw [hybrid_pairs_snd_id vec kw pr hpr]
    rw [hcg, hfil]
    rfl
  · have hlast := dictFind_pyDict ((vec ++ kw).map (fun d2 => (d2.id, d2))) i
    rw [hfind] at hlast
    have hfl : ((vec ++ kw).map (fun d2 => (d2.id, d2))).filter
        (fun pr => pr.1 == i)
        = ((vec ++ kw).filter (fun d2 => d2.id == i)).map
            (fun d2 => (d2.id, d2)) := by
      rw [List.map_filter]
      rfl
    rw [hfl, List.filter_append, List.map_append] at hlast
    have hkne : kw.filter (fun d2 => d2.id == i) ≠ [] := by
      simp only [List.mem_map] at h
      obtain ⟨dk, hdk, hid⟩ := h
      intro hc
      have hmf : dk ∈ kw.filter (fun d2 => d2.id == i) :=
        List.mem_filter.mpr ⟨hdk, by simp [hid]⟩
      rw [hc] at hmf
      exact absurd hmf (List.not_mem_nil dk)
    have hmapne : (kw.filter (fun d2 => d2.id == i)).map
        (fun d2 => (d2.id, d2)) ≠ [] := by
      intro hc
      exact hkne (List.map_eq_nil_iff.mp hc)
    rw [List.getLast?_append_of_ne_nil _ hmapne, List.getLast?_map,
      Option.map_map] at hlast
    have hcomp : (Prod.snd ∘ fun d2 : Doc => (d2.id, d2)) = id := rfl
    rw [hcomp, Option.map_id] at hlast
    exact hlast.symm

/-- C1 witness: the amended theorem applied to the counterexample lists,
hypotheses discharged by evaluation. -/
theorem C1_amended_witness :
    ∃ d2 : Doc,
      (hybrid_search [cexVecDoc] [cexKwDoc]).filter (fun x => x.id == ("A"))
          = [d2]
        ∧ ([cexKwDoc].filter (fun x => x.id == ("A"))).getLast? = some d2 :=
  C1_amended_keyword_version_wins [cexVecDoc] [cexKwDoc] ("A") (by decide)

/-- C10: the hybrid-search output has no duplicated identities, its identity
sequence is the vector-search identities (first occurrences, in vector
order) followed by the keyword-only identities (in keyword order), and it
holds at most `2 * top_k` documents when each input list respects `top_k`.
There is no global re-ranking by score. -/
theorem C10_hybrid_order (vec kw : List Doc) (top_k : Nat) :
    ((hybrid_search vec kw).map Doc.id).Nodup
    ∧ (hybrid_search vec kw).map Doc.id
        = firstDedup (vec.map Doc.id)
          ++ (firstDedup (kw.map Doc.id)).filter
              (fun i => !((vec.map Doc.id).contains i))
    ∧ (vec.length ≤ top_k → kw.length ≤ top_k →
        (hybrid_search vec kw).length ≤ 2 * top_k) := by
  have hids := hybrid_ids vec kw
  refine ⟨?_, ?_, ?_⟩
  · rw [hids, pyDict_keys]
    exact firstDedup_nodup _
  · rw [hids]
    exact hybrid_keys vec kw
  · intro h1 h2
    have hlen : (hybrid_search vec kw).length
        = ((hybrid_search vec kw).map Doc.id).length := by
      rw [List.length_map]
    rw [hlen, hids, pyDict_keys]
    have h3 := firstDedup_length_le
      (((vec ++ kw).map (fun d2 => (d2.id, d2))).map Prod.fst)
    rw [pair_keys] at h3
    simp only [List.length_append, List.length_map] at h3
    have h4 : firstDedup (((vec ++ kw).map (fun d2 => (d2.id, d2))).map
        Prod.fst) = firstDedup (vec.map Doc.id ++ kw.map Doc.id) := by
      rw [pair_keys]
    rw [h4]
    omega

/-- C10 witness: the theorem applied to concrete one-element lists with
`top_k = 5`, hypotheses discharged by evaluation. -/
theorem C10_witness :
    ((hybrid_search [cexVecDoc] [cexKwDoc]).map Doc.id).Nodup
    ∧ (hybrid_search [cexVecDoc] [cexKwDoc]).map Doc.id
        = firstDedup ([cexVecDoc].map Doc.id)
          ++ (firstDedup ([cexKwDoc].map Doc.id)).filter
              (fun i => !(([cexVecDoc].map Doc.id).contains i))
    ∧ (hybrid_search [cexVecDoc] [cexKwDoc]).length ≤ 2 * 5 := by
  obtain ⟨h1, h2, h3⟩ := C10_hybrid_order [cexVecDoc] [cexKwDoc] 5
  exact ⟨h1, h2, h3 (by decide) (by decide)⟩

lemma all_empty_result (q : String) :
    adaptive_retrieval q (fun _ _ => [])
      = AdaptiveResult.found none Strat.logs_vector 0 := by
  obtain ⟨w, hw, hmax, hties⟩ := adaptive_spec q (fun _ _ => [])
  have hbs : ∀ s, bestScore q (fun _ _ => []) s = 0 := by
    intro s
    simp [bestScore, passScore, generate_answer, scoreAnswer]
  have hwlv : w = Strat.logs_vector := by
    by_contra hne
    have hcl : canonIdx Strat.logs_vector < canonIdx w := by
      cases w
      · exact absurd rfl hne
      · simp [canonIdx]
      · simp [canonIdx]
      · simp [canonIdx]
    have hlt := hties Strat.logs_vector hcl
    rw [hbs, hbs] at hlt
    exact lt_irrefl 0 hlt
  subst hwlv
  rw [hw, hbs]
  rfl

/-- C3: for every query and store behaviour, the adaptive loop returns the
strategy with the maximum best-score-so-far — ties broken by
first-encountered insertion order in the scores map, which (proved via
`final_scores_keys`) is the canonical order `canonIdx` — with confidence
equal to that strategy's maximum score across the two passes
(`bestScore`), while the returned answer text is the answer from the most
recent pass that executed the strategy, i.e. pass 1 (`passAnswer … 1 …`),
even if pass 1 scored lower. -/
theorem C3_winner_selection (q : String) (d : Nat → Strat → List Doc) :
    ∃ w : Strat,
      adaptive_retrieval q d
          = AdaptiveResult.found (passAnswer q d 1 w) w (bestScore q d w)
        ∧ (∀ s : Strat, bestScore q d s ≤ bestScore q d w)
        ∧ (∀ s : Strat, canonIdx s < canonIdx w →
            bestScore q d s < bestScore q d w) :=
  adaptive_spec q d

/-- C3 witness: the selection theorem instantiated at a concrete query and
the all-empty store behaviour. -/
theorem C3_witness :
    ∃ w : Strat,
      adaptive_retrieval ("WriteConflict during bulk insert") (fun _ _ => [])
          = AdaptiveResult.found
              (passAnswer ("WriteConflict during bulk insert")
                (fun _ _ => []) 1 w) w
              (bestScore ("WriteConflict during bulk insert")
                (fun _ _ => []) w)
        ∧ (∀ s : Strat,
            bestScore ("WriteConflict during bulk insert") (fun _ _ => []) s
              ≤ bestScore ("WriteConflict during bulk insert")
                  (fun _ _ => []) w)
        ∧ (∀ s : Strat, canonIdx s < canonIdx w →
            bestScore ("WriteConflict during bulk insert") (fun _ _ => []) s
              < bestScore ("WriteConflict during bulk insert")
                  (fun _ _ => []) w) :=
  C3_winner_selection ("WriteConflict during bulk insert") (fun _ _ => [])

/-- C2, counterexample.  The claim says that when every strategy returns an
empty document list in both passes the loop returns the sentinel
`{"answer": "No confident answer found."}`.  It does not: the scores dict
receives an entry (value 0.0) for every strategy in pass 0 regardless, so
`if strategy_scores:` is always true and the result is the winning-strategy
dict for `logs_vector` with confidence 0 and answer `None`. -/
theorem C2_counterexample :
    adaptive_retrieval ("nonexistent error xyz123") (fun _ _ => [])
        = AdaptiveResult.found none Strat.logs_vector 0
      ∧ adaptive_retrieval ("nonexistent error xyz123") (fun _ _ => [])
          ≠ AdaptiveResult.noConfidentAnswer := by
  refine ⟨all_empty_result _, ?_⟩
  rw [all_empty_result]
  intro hc
  exact AdaptiveResult.noConfusion hc

/-- C2, amended.  If every strategy returns an empty document list in both
passes, the adaptive loop does NOT return the sentinel: it returns the
first canonical strategy `logs_vector` as winner with confidence 0.0 and an
absent answer (`None`), because every strategy still writes a 0.0 score
into the scores map during pass 0, making the sentinel branch
unreachable. -/
theorem C2_amended_no_sentinel (q : String) :
    adaptive_retrieval q (fun _ _ => [])
      = AdaptiveResult.found none Strat.logs_vector 0 :=
  all_empty_result q

/-- C5: the scores map holds an entry for each of the four strategies
already after pass 0, the sentinel-only branch is unreachable (the result
always carries winning_strategy and confidence), and with all-empty
retrieval the result is confidence 0.0, winner `logs_vector` and absent
answer — not the sentinel text. -/
theorem C5_sentinel_branch_dead :
    (∀ (q : String) (d : Nat → Strat → List Doc) (s : Strat),
        (dictFind (pass0 q d).2.scores s).isSome = true)
    ∧ (∀ (q : String) (d : Nat → Strat → List Doc),
        ∃ a w c, adaptive_retrieval q d = AdaptiveResult.found a w c)
    ∧ adaptive_retrieval ("nonexistent error xyz123") (fun _ _ => [])
        = AdaptiveResult.found none Strat.logs_vector 0 := by
  refine ⟨?_, ?_, all_empty_result _⟩
  · intro q d s
    rw [pass0_state]
    cases s <;> simp [dictFind, List.find?]
  · intro q d
    obtain ⟨w, hw, -, -⟩ := adaptive_spec q d
    exact ⟨_, _, _, hw⟩

/-- C4: the strategy order for the next pass is produced by `resequence`
(the model of `strategies.sort(key=…, reverse=True)`), which is a stable
sort by best-score-so-far descending: the result is a permutation of the
input, it is pairwise descending in the key, elements with any equal key
keep their relative order (the filter characterisation of stability), and
on the concrete scores {logs_vector: 0.6, logs_hybrid: 1.0,
knowledge_vector: 0.0, rewrite_knowledge: 1.0} the pass-2 order is
[logs_hybrid, rewrite_knowledge, logs_vector, knowledge_vector]. -/
theorem C4_stable_resequencing :
    (∀ (α : Type) (key : α → Score) (l : List α),
        List.Perm (sortDesc key l) l
        ∧ (sortDesc key l).Pairwise (fun a b => key b ≤ key a)
        ∧ ∀ c : Score,
            (sortDesc key l).filter (fun a => decide (key a = c))
              = l.filter (fun a => decide (key a = c)))
    ∧ resequence demoScores initialStrategies
        = [(.logs_hybrid, 5), (.rewrite_knowledge, 10), (.logs_vector, 5),
           (.knowledge_vector, 5)] := by
  refine ⟨fun α key l =>
    ⟨sortDesc_perm key l, sortDesc_sorted key l,
     fun c => sortDesc_filter key l c⟩, ?_⟩
  simp [resequence, sortDesc, insertDesc, demoScores, initialStrategies,
    dictGetD, dictFind, List.find?]
  norm_num

/-- C6: a complete run writes exactly 8 metrics records — one per
(strategy, pass) pair — and each pass's 4 records appear in the event trace
before that pass's re-sort event. -/
theorem C6_metrics_records (q : String) (d : Nat → Strat → List Doc) :
    ∃ E0 E1 : List Event,
      (adaptiveLoop q d).events
          = E0 ++ Event.resort 0 :: (E1 ++ [Event.resort 1])
        ∧ E0.length = 4 ∧ E1.length = 4
        ∧ (∀ e ∈ E0, ∃ s sc, e = Event.metric s 0 sc)
        ∧ (∀ e ∈ E1, ∃ s sc, e = Event.metric s 1 sc)
        ∧ (∀ s : Strat,
            E0.countP (isMetricOf s 0) = 1 ∧ E1.countP (isMetricOf s 1) = 1)
        ∧ ((adaptiveLoop q d).events.countP isMetric) = 8 := by
  have hperm := pass0_strats_perm q d
  refine ⟨initialStrategies.map
      (fun sk => Event.metric sk.1 0 (passScore q d 0 sk.1)),
    (pass0 q d).1.map (fun sk => Event.metric sk.1 1 (passScore q d 1 sk.1)),
    ?_, ?_, ?_, ?_, ?_, ?_, ?_⟩
  · rw [final_events]
    simp [List.append_assoc]
  · simp [initialStrategies]
  · rw [List.length_map, List.Perm.length_eq hperm]
    simp [initialStrategies]
  · intro e he
    simp only [List.mem_map] at he
    obtain ⟨sk, hsk, he2⟩ := he
    exact ⟨sk.1, passScore q d 0 sk.1, he2.symm⟩
  · intro e he
    simp only [List.mem_map] at he
    obtain ⟨sk, hsk, he2⟩ := he
    exact ⟨sk.1, passScore q d 1 sk.1, he2.symm⟩
  · intro s
    constructor
    · cases s <;>
        simp [initialStrategies, isMetricOf, List.countP_cons, List.countP_nil]
    · rw [List.countP_map]
      rw [List.Perm.countP_congr hperm (fun x _ => rfl)]
      cases s <;>
        simp [initialStrategies, isMetricOf, List.countP_cons, List.countP_nil]
  · rw [final_events]
    simp only [List.countP_append, List.countP_map]
    have h1 : List.countP
        (isMetric ∘ (fun sk : Strat × Nat => Event.metric sk.1 0 (passScore q d 0 sk.1)))
        initialStrategies = 4 := by
      simp [initialStrategies, isMetric, List.countP_cons, List.countP_nil]
    have h2 : List.countP
        (isMetric ∘ (fun sk : Strat × Nat => Event.metric sk.1 1 (passScore q d 1 sk.1)))
        (pass0 q d).1 = 4 := by
      rw [List.Perm.countP_congr hperm (fun x _ => rfl)]
      simp [initialStrategies, isMetric, List.countP_cons, List.countP_nil]
    rw [h1, h2]
    simp [isMetric, List.countP_cons, List.countP_nil]

/-- C6 witness: the metrics theorem instantiated at a concrete query and
the all-empty store behaviour. -/
theorem C6_witness :
    ∃ E0 E1 : List Event,
      (adaptiveLoop ("q") (fun _ _ => [])).events
          = E0 ++ Event.resort 0 :: (E1 ++ [Event.resort 1])
        ∧ E0.length = 4 ∧ E1.length = 4
        ∧ (∀ e ∈ E0, ∃ s sc, e = Event.metric s 0 sc)
        ∧ (∀ e ∈ E1, ∃ s sc, e = Event.metric s 1 sc)
        ∧ (∀ s : Strat,
            E0.countP (isMetricOf s 0) = 1 ∧ E1.countP (isMetricOf s 1) = 1)
        ∧ ((adaptiveLoop ("q") (fun _ _ => [])).events.countP isMetric) = 8 :=
  C6_metrics_records ("q") (fun _ _ => [])

/-- C7: `ensure_embeddings` maps each document of the collection to its
updated version and logs provider calls per document; a document whose
embedding is present and non-empty is returned unchanged and contributes no
provider call; a document with a missing/empty embedding whose concatenated
trimmed text is empty is skipped; a document with a missing/empty embedding
and non-empty text gets the embedding vector, the model identifier
`EMBED_MODEL` and the timestamp written onto it, and contributes exactly
the provider interaction of `embed` on its text.  `count` is the number of
processed documents. -/
theorem C7_never_recompute (provider : String → List Score) (now : Nat)
    (fields : List String) (docs : List StoredDoc) :
    (ensure_embeddings provider now fields docs).1
        = docs.map (ensureUpdate provider now fields)
    ∧ (ensure_embeddings provider now fields docs).2.2
        = (docs.map (ensureCalls provider fields)).flatten
    ∧ (ensure_embeddings provider now fields docs).2.1
        = (docs.filter (processedB fields)).length
    ∧ (∀ dd : StoredDoc, missingEmbedding dd = false →
        ensureUpdate provider now fields dd = dd
          ∧ ensureCalls provider fields dd = [])
    ∧ (∀ dd : StoredDoc, missingEmbedding dd = true →
        docText fields dd = "" →
        ensureUpdate provider now fields dd = dd
          ∧ ensureCalls provider fields dd = [])
    ∧ (∀ dd : StoredDoc, missingEmbedding dd = true →
        docText fields dd ≠ "" →
        ensureUpdate provider now fields dd
            = { dd with
                embedding := some (embed provider (docText fields dd)).1,
                embedding_model := some EMBED_MODEL,
                embedding_ts := some now }
          ∧ ensureCalls provider fields dd
              = (embed provider (docText fields dd)).2) := by
  have h := ensure_spec provider now fields docs
  refine ⟨by rw [h], by rw [h], by rw [h], ?_, ?_, ?_⟩
  · intro dd hm
    constructor <;> simp [ensureUpdate, ensureCalls, hm]
  · intro dd hm ht
    constructor <;> simp [ensureUpdate, ensureCalls, hm, ht]
  · intro dd hm ht
    constructor <;> simp [ensureUpdate, ensureCalls, hm, ht]

/-- C7 witness: the theorem applied with a concrete provider, timestamp,
field list and documents — one with a non-empty embedding (untouched, no
call), one with an empty-array embedding and whitespace-only text
(skipped), one with no embedding and real text (updated). -/
theorem C7_witness :
    (ensureUpdate witProvider 42 ["raw_log"] witStoredFull = witStoredFull
      ∧ ensureCalls witProvider ["raw_log"] witStoredFull = [])
    ∧ (ensureUpdate witProvider 42 ["raw_log"] witStoredBlank = witStoredBlank
      ∧ ensureCalls witProvider ["raw_log"] witStoredBlank = [])
    ∧ (ensureUpdate witProvider 42 ["raw_log"] witStoredMissing
        = { witStoredMissing with
            embedding :=
              some (embed witProvider (docText ["raw_log"] witStoredMissing)).1,
            embedding_model := some EMBED_MODEL,
            embedding_ts := some 42 }
      ∧ ensureCalls witProvider ["raw_log"] witStoredMissing
          = (embed witProvider (docText ["raw_log"] witStoredMissing)).2) :=
  ⟨(C7_never_recompute witProvider 42 ["raw_log"] []).2.2.2.1
      witStoredFull (by decide),
   (C7_never_recompute witProvider 42 ["raw_log"] []).2.2.2.2.1
      witStoredBlank (by decide) (by decide),
   (C7_never_recompute witProvider 42 ["raw_log"] []).2.2.2.2.2
      witStoredMissing (by decide) (by decide)⟩

/-- C8: `embed` returns the empty vector and performs no provider call for
every input whose trimmed text is empty (empty or whitespace-only), and for
every other input returns the provider's single vector, with exactly one
provider call carrying the original (untrimmed) text. -/
theorem C8_embed_contract (provider : String → List Score) (t : String) :
    (pyStrip t = "" → embed provider t = ([], []))
    ∧ (pyStrip t ≠ "" → embed provider t = (provider t, [t])) := by
  constructor <;> intro h <;> simp [embed, h]

/-- C8 witness: the contract applied to a whitespace-only text and to a
non-blank text, hypotheses discharged by evaluation. -/
theorem C8_witness :
    embed witProvider ("   ") = ([], [])
    ∧ embed witProvider (" ok ") = (witProvider (" ok "), [" ok "]) :=
  ⟨(C8_embed_contract witProvider ("   ")).1 (by decide),
   (C8_embed_contract witProvider (" ok ")).2 (by decide)⟩

/-- C9: the Judge is a pure function of the answer text (it is a Lean
function of the text alone); an absent answer scores zero; and whenever the
synthesizer produces an answer (non-empty document list), the fixed
template contains all three markers regardless of which fields the top
document carries, so the score is exactly 1
(`0.4 + 0.3 + 0.3`, which is exactly `1.0` in IEEE doubles as well). -/
theorem C9_judge_rubric (q : String) (docs : List Doc) :
    generate_answer q [] = none
    ∧ scoreAnswer none = 0
    ∧ (docs ≠ [] →
        ∃ a, generate_answer q docs = some a
          ∧ containsStr a ("Component:") = true
          ∧ containsStr a ("Likely Cause") = true
          ∧ containsStr a ("Suggested Fix") = true
          ∧ judge a = 1
          ∧ scoreAnswer (generate_answer q docs) = 1) := by
  refine ⟨rfl, rfl, ?_⟩
  intro hne
  rcases docs with _ | ⟨d0, rest⟩
  · exact absurd rfl hne
  refine ⟨answerTemplate d0, rfl, template_marker_component d0,
    template_marker_cause d0, template_marker_fix d0,
    judge_eq_one _ (template_marker_component d0) (template_marker_cause d0)
      (template_marker_fix d0), ?_⟩
  show scoreAnswer (some (answerTemplate d0)) = 1
  rw [scoreAnswer, if_neg (answerTemplate_ne_empty d0)]
  exact judge_eq_one _ (template_marker_component d0)
    (template_marker_cause d0) (template_marker_fix d0)

/-- C9 witness: the rubric applied to a query and a concrete one-document
list, the non-emptiness hypothesis discharged explicitly. -/
theorem C9_witness :
    ∃ a, generate_answer ("q") [witDoc] = some a
      ∧ containsStr a ("Component:") = true
      ∧ containsStr a ("Likely Cause") = true
      ∧ containsStr a ("Suggested Fix") = true
      ∧ judge a = 1
      ∧ scoreAnswer (generate_answer ("q") [witDoc]) = 1 :=
  (C9_judge_rubric ("q") [witDoc]).2.2 (List.cons_ne_nil witDoc [])







end AdaptiveMongo
